import Mathlib

/-!
Verification of the tradeviewer position/trade reconciliation core.

Shallow embedding of:
- `utils/data_utils.normalize_symbol`
- `services/aggregation_service.sync_aggregated_trades`
- `services/apex_leverage_calculator` and `services/hyperliquid_leverage_calculator`
- `db/queries.insert_position_snapshot` (the `opened_at` computation)
- `db/queries_strategies.resolve_strategy_id`

Modelling conventions: Python floats are embedded as exact rationals,
`datetime` values as integers (seconds), SQL rows as Lean structures held in
lists (the table in insertion order), and `None` as `Option.none`.  An SQL
query `ORDER BY ts DESC ... .first()` is embedded as "element with maximal
timestamp, earliest row wins ties"; `ORDER BY ts ASC ... .first()` dually.
Python strings are embedded as `List Char` where character-level operations
matter (symbols) and as `String` for opaque tags (sides, methods).
-/

namespace TradeViewer

/-- Python truthiness for an optional numeric field: `x if x else None`
(both `None` and `0` are falsy). -/
def pyTruthyQ (x : Option ℚ) : Option ℚ :=
  match x with
  | some v => if v = 0 then none else some v
  | none => none

/-- Python `s or default` for an optional string (both `None` and the empty
string are falsy). -/
def pyStrOr (m : Option String) (default : String) : String :=
  match m with
  | some s => if s = "" then default else s
  | none => default

/-- ASCII model of Python `str.upper` on one character. -/
def pyUpperChar (c : Char) : Char :=
  if 'a' ≤ c ∧ c ≤ 'z' then Char.ofNat (c.toNat - 32) else c

/-- Embedding of `utils/data_utils.normalize_symbol`.  The Python code maps
`symbol.replace('_', '-').upper()`, returns it unchanged when it already
contains a dash, else splits off a recognized quote-asset suffix
(`USDT`, `USDC`, `USD`, tried in that order) when a nonempty base remains. -/
def normalize_symbol (symbol : List Char) : List Char :=
  if symbol = [] then []
  else
    let s := (symbol.map (fun c => if c = '_' then '-' else c)).map pyUpperChar
    if s.contains '-' then s
    else if ['U', 'S', 'D', 'T'].isSuffixOf s ∧ 4 < s.length then
      s.take (s.length - 4) ++ '-' :: ['U', 'S', 'D', 'T']
    else if ['U', 'S', 'D', 'C'].isSuffixOf s ∧ 4 < s.length then
      s.take (s.length - 4) ++ '-' :: ['U', 'S', 'D', 'C']
    else if ['U', 'S', 'D'].isSuffixOf s ∧ 3 < s.length then
      s.take (s.length - 3) ++ '-' :: ['U', 'S', 'D']
    else s

/-- A row of the `closed_trades` table (a trade leg). -/
structure ClosedTrade where
  id : ℕ
  wallet_id : ℕ
  symbol : List Char
  side : String
  size : ℚ
  entry_price : ℚ
  exit_price : ℚ
  trade_type : String
  open_fee : Option ℚ
  close_fee : Option ℚ
  liquidate_fee : Option ℚ
  exit_type : Option String
  equity_used : Option ℚ
  leverage : Option ℚ
  strategy_id : Option ℕ
  reduce_only : Option Bool
  timestamp : ℤ
  deriving DecidableEq

/-- A row of the `aggregated_trades` table. -/
structure AggRow where
  wallet_id : ℕ
  timestamp : ℤ
  symbol : List Char
  side : String
  size : ℚ
  avg_entry_price : ℚ
  avg_exit_price : ℚ
  trade_type : String
  total_pnl : ℚ
  total_open_fee : Option ℚ
  total_close_fee : Option ℚ
  total_liquidate_fee : Option ℚ
  exit_type : Option String
  equity_used : Option ℚ
  leverage : Option ℚ
  strategy_id : Option ℕ
  fill_count : ℕ
  deriving DecidableEq

/-- Descending-timestamp order used for `opening_lookup[key].sort(key=...,
reverse=True)`; Python list sort is stable, as is insertion sort with this
non-strict relation. -/
def tsGe (a b : ClosedTrade) : Prop := b.timestamp ≤ a.timestamp

instance : DecidableRel tsGe := fun a b => inferInstanceAs (Decidable (b.timestamp ≤ a.timestamp))

instance : IsTotal ClosedTrade tsGe := ⟨fun a b => le_total b.timestamp a.timestamp⟩

instance : IsTrans ClosedTrade tsGe := ⟨fun _ _ _ h1 h2 => le_trans h2 h1⟩

/-- Closing legs of `sync_aggregated_trades`: explicit `reduce_only = True`
rows followed by the `reduce_only IS NULL` rows (legacy accommodation). -/
def closingLegs (trades : List ClosedTrade) : List ClosedTrade :=
  trades.filter (fun t => t.reduce_only = some true) ++
    trades.filter (fun t => t.reduce_only = none)

/-- Opening legs of `sync_aggregated_trades`: rows with `reduce_only = False`. -/
def openingLegs (trades : List ClosedTrade) : List ClosedTrade :=
  trades.filter (fun t => t.reduce_only = some false)

/-- The `(wallet_id, normalized symbol)` group of opening legs for a key,
sorted by timestamp descending (the code builds `opening_lookup` in input
order and stably sorts each group with `reverse=True`). -/
def openGroup (openers : List ClosedTrade) (w : ℕ) (sym : List Char) : List ClosedTrade :=
  List.insertionSort tsGe
    (openers.filter (fun t => t.wallet_id = w ∧ normalize_symbol t.symbol = sym))

/-- The candidate test of the matching loop, in source order: opening strictly
before closing, nonzero opener size, relative size difference (denominator the
opener's size) not above 0.1%. -/
def candidateOk (o c : ClosedTrade) : Bool :=
  decide (o.timestamp < c.timestamp) && !(decide (o.size = 0)) &&
    !(decide ((1 : ℚ)/1000 < |o.size - c.size| / o.size))

/-- The opening leg `sync_aggregated_trades` selects for a closing leg: the
first candidate of the closer's descending-sorted group passing
`candidateOk`.  Matched openers are not removed from the lookup. -/
def matchOpener (openers : List ClosedTrade) (c : ClosedTrade) : Option ClosedTrade :=
  (openGroup openers c.wallet_id (normalize_symbol c.symbol)).find? (fun o => candidateOk o c)

/-- The matching loop: walks the closing legs, skipping ids already matched
(`matched_closing_ids`), and records each `(closing leg, opening leg)` pair. -/
def matchedPairsAux (openers : List ClosedTrade) :
    List ClosedTrade → List ℕ → List (ClosedTrade × ClosedTrade)
  | [], _ => []
  | c :: rest, seen =>
    if c.id ∈ seen then matchedPairsAux openers rest seen
    else
      match matchOpener openers c with
      | none => matchedPairsAux openers rest seen
      | some o => (c, o) :: matchedPairsAux openers rest (c.id :: seen)

/-- All `(closing leg, opening leg)` pairs produced by one run of
`sync_aggregated_trades` over a closed-trades set. -/
def matchedPairs (trades : List ClosedTrade) : List (ClosedTrade × ClosedTrade) :=
  matchedPairsAux (openingLegs trades) (closingLegs trades) []

/-- The aggregated-trade row built from a matched opening and closing leg
(the field assignments shared by the update and insert arms of the upsert). -/
def mkRow (o c : ClosedTrade) : AggRow :=
  let position_side := if o.side = "BUY" then "LONG" else "SHORT"
  let size := |c.size|
  let pnl :=
    if position_side = "LONG" then (c.exit_price - o.entry_price) * size
    else (o.entry_price - c.exit_price) * size
  let total_fees := o.open_fee.getD 0 + c.close_fee.getD 0 + c.liquidate_fee.getD 0
  { wallet_id := c.wallet_id
    timestamp := c.timestamp
    symbol := normalize_symbol c.symbol
    side := position_side
    size := size
    avg_entry_price := o.entry_price
    avg_exit_price := c.exit_price
    trade_type := c.trade_type
    total_pnl := pnl - total_fees
    total_open_fee := match o.open_fee with
      | some v => if 0 < v then some v else none
      | none => none
    total_close_fee := match c.close_fee with
      | some v => if 0 < v then some v else none
      | none => none
    total_liquidate_fee := match c.liquidate_fee with
      | some v => if 0 < v then some v else none
      | none => none
    exit_type := c.exit_type
    equity_used := c.equity_used
    leverage := c.leverage
    strategy_id := c.strategy_id
    fill_count := 2 }

/-- The natural key of the upsert: `(wallet_id, closing timestamp, normalized
symbol)`. -/
def aggKey (c : ClosedTrade) : ℕ × ℤ × List Char :=
  (c.wallet_id, c.timestamp, normalize_symbol c.symbol)

/-- The key columns of a row of the `aggregated_trades` table. -/
def aggRowKey (r : AggRow) : ℕ × ℤ × List Char := (r.wallet_id, r.timestamp, r.symbol)

/-- The rows one run writes, one per matched pair in processing order. -/
def aggWrites (trades : List ClosedTrade) : List AggRow :=
  (matchedPairs trades).map (fun p => mkRow p.2 p.1)

/-- Embedding of the `existing` query: the first row (in rowid order) of the
table whose key columns equal `k`, as an index; `None` when no row matches. -/
def findKeyIdx (k : ℕ × ℤ × List Char) : List AggRow → Option ℕ
  | [] => none
  | r :: rest => if aggRowKey r = k then some 0 else (findKeyIdx k rest).map (· + 1)

/-- The ORM effects of the matching loop over the table as seen when the run
starts.  The session is `autoflush=False` (`db/database.py`) and
`sync_aggregated_trades` never flushes, so every `existing` query reads the
start-of-run table only: a row `session.add`-ed for an earlier closing leg of
the same run is not yet visible to it, and two closing legs sharing a key
both insert when the key is absent.  The state is the in-memory image of the
start table (updates applied in place at the queried row's position) and the
pending inserts in processing order. -/
def runAux (start : List AggRow) :
    List AggRow × List AggRow → List AggRow → List AggRow × List AggRow
  | acc, [] => acc
  | acc, v :: ws =>
    match findKeyIdx (aggRowKey v) start with
    | some i => runAux start (acc.1.set i v, acc.2) ws
    | none => runAux start (acc.1, acc.2 ++ [v]) ws

/-- The table after the run's writes flush: the updated image of the start
table followed by the pending inserts in insertion order. -/
def runUpserts (start ws : List AggRow) : List AggRow :=
  (runAux start (start, []) ws).1 ++ (runAux start (start, []) ws).2

/-- The optional `wallet_id` filter of `sync_aggregated_trades`
(`if wallet_id:` — Python truthiness, so `0` disables the filter too). -/
def syncInput (trades : List ClosedTrade) (wallet : Option ℕ) : List ClosedTrade :=
  match wallet with
  | some w => if w = 0 then trades else trades.filter (fun t => t.wallet_id = w)
  | none => trades

/-- Embedding of `services/aggregation_service.sync_aggregated_trades`:
returns the `aggregated_trades` table after the run and the count of upserted
rows.  The `Position.closed_at` side effect (`close_position`) touches a
different table and is not part of this state. -/
def sync_aggregated_trades (trades : List ClosedTrade) (wallet : Option ℕ)
    (table : List AggRow) : List AggRow × ℕ :=
  (runUpserts table (aggWrites (syncInput trades wallet)),
    (aggWrites (syncInput trades wallet)).length)

/-- A row of the `position_snapshots` table (the fields the embedded queries
consult). -/
structure PosSnap where
  wallet_id : ℕ
  symbol : List Char
  timestamp : ℤ
  size : ℚ
  leverage : Option ℚ
  equity_used : Option ℚ
  calculation_method : Option String
  opened_at : Option ℤ
  deriving DecidableEq

/-- A row of the `equity_snapshots` table (the fields the embedded queries
consult). -/
structure EqSnap where
  wallet_id : ℕ
  timestamp : ℤ
  initial_margin : Option ℚ
  deriving DecidableEq

/-- Embedding of `ORDER BY timestamp DESC ... .first()` over a filtered
table: the matching row with maximal timestamp, earliest row winning ties. -/
def maxByTs {α : Type} (ts : α → ℤ) : List α → Option α
  | [] => none
  | x :: xs =>
    match maxByTs ts xs with
    | none => some x
    | some y => if ts x < ts y then some y else some x

/-- Embedding of `ORDER BY timestamp ASC ... .first()` over a filtered
table: the matching row with minimal timestamp, earliest row winning ties. -/
def minByTs {α : Type} (ts : α → ℤ) : List α → Option α
  | [] => none
  | x :: xs =>
    match minByTs ts xs with
    | none => some x
    | some y => if ts y < ts x then some y else some x

/-- Embedding of `is_new_position` (defined identically in
`apex_leverage_calculator` and `hyperliquid_leverage_calculator`): the most
recent snapshot for the key within a 5-minute lookback; no such snapshot, or
one of (near-)zero size, means a new position. -/
def is_new_position (posDb : List PosSnap) (w : ℕ) (sym : List Char) (now : ℤ) : Bool :=
  match maxByTs PosSnap.timestamp
      (posDb.filter (fun p =>
        p.wallet_id = w ∧ p.symbol = sym ∧ p.timestamp < now ∧ now - 300 ≤ p.timestamp)) with
  | none => true
  | some prev => decide (prev.size = 0) || decide (|prev.size| < (1 : ℚ)/10000)

/-- Embedding of `apex_leverage_calculator.get_previous_initial_margin`: the
most recent non-null `initial_margin` strictly before the timestamp, within a
1-hour lookback. -/
def apex_get_previous_initial_margin (eqDb : List EqSnap) (w : ℕ) (before : ℤ) : Option ℚ :=
  (maxByTs EqSnap.timestamp
      (eqDb.filter (fun e =>
        e.wallet_id = w ∧ e.timestamp < before ∧ before - 3600 ≤ e.timestamp ∧
          e.initial_margin ≠ none))).bind EqSnap.initial_margin

/-- Embedding of `hyperliquid_leverage_calculator.get_previous_margin_used`:
as the Apex version but with a 24-hour lookback (the table column is also
named `initial_margin`). -/
def hl_get_previous_margin_used (eqDb : List EqSnap) (w : ℕ) (before : ℤ) : Option ℚ :=
  (maxByTs EqSnap.timestamp
      (eqDb.filter (fun e =>
        e.wallet_id = w ∧ e.timestamp < before ∧ before - 86400 ≤ e.timestamp ∧
          e.initial_margin ≠ none))).bind EqSnap.initial_margin

/-- The raw Apex position payload fields the fallback reads; a missing field
is `none` (Python `dict.get(..., 0) or 0` defaults it to `0`). -/
structure RawPosition where
  customInitialMarginRate : Option ℚ
  size : Option ℚ
  entryPrice : Option ℚ
  deriving DecidableEq

/-- Embedding of `apex_leverage_calculator.calculate_from_margin_rate`: with
a positive payload margin rate `r`, leverage `1/r` and equity
`|size| * entryPrice * r`; else `(None, None, "unknown")`. -/
def calculate_from_margin_rate (raw : RawPosition) : Option ℚ × Option ℚ × String :=
  let margin_rate := raw.customInitialMarginRate.getD 0
  if 0 < margin_rate then
    let size := |raw.size.getD 0|
    let entry_price := raw.entryPrice.getD 0
    let position_size_usd := size * entry_price
    (some (1 / margin_rate), some (position_size_usd * margin_rate), "margin_rate")
  else (none, none, "unknown")

/-- Embedding of `apex_leverage_calculator.calculate_leverage_from_margin_delta`.
For an existing position it falls back to the margin rate directly; for a new
one it takes the margin delta when a previous margin exists and the delta is
positive (a delta above the notional is logged but still used), else falls
back to the margin rate. -/
def apex_calculate_leverage_from_margin_delta (posDb : List PosSnap) (eqDb : List EqSnap)
    (w : ℕ) (sym : List Char) (position_size_usd current_initial_margin : ℚ) (now : ℤ)
    (raw : RawPosition) : Option ℚ × Option ℚ × String :=
  if ¬ (is_new_position posDb w sym now = true) then calculate_from_margin_rate raw
  else
    match apex_get_previous_initial_margin eqDb w now with
    | none => calculate_from_margin_rate raw
    | some previous_margin =>
      let margin_delta := current_initial_margin - previous_margin
      if margin_delta ≤ 0 then calculate_from_margin_rate raw
      else (some (position_size_usd / margin_delta), some margin_delta, "margin_delta")

/-- The most recent snapshot for the key strictly before `now`, no lookback
(`latest_snapshot` of the Hyperliquid calculator). -/
def hl_latest_snapshot (posDb : List PosSnap) (w : ℕ) (sym : List Char) (now : ℤ) :
    Option PosSnap :=
  maxByTs PosSnap.timestamp
    (posDb.filter (fun p => p.wallet_id = w ∧ p.symbol = sym ∧ p.timestamp < now))

/-- The earliest positive-size snapshot for the key, over the whole history
(`first_snapshot` of the Hyperliquid calculator). -/
def hl_first_snapshot (posDb : List PosSnap) (w : ℕ) (sym : List Char) : Option PosSnap :=
  minByTs PosSnap.timestamp
    (posDb.filter (fun p => p.wallet_id = w ∧ p.symbol = sym ∧ 0 < p.size))

/-- The common tail validation of the Hyperliquid calculator: a nonpositive
delta yields `(None, None, "unknown")`; otherwise leverage `notional / delta`
(a delta above the notional is logged but still used). -/
def hl_validate (position_size_usd margin_delta : ℚ) : Option ℚ × Option ℚ × String :=
  if margin_delta ≤ 0 then (none, none, "unknown")
  else (some (position_size_usd / margin_delta), some margin_delta, "margin_delta")

/-- The Hyperliquid calculator after its freeze check: the dead safety branch,
the `opened_at`-anchored delta, and the previous-margin fallbacks. -/
def hl_after_freeze (eqDb : List EqSnap) (w : ℕ)
    (position_size_usd current_margin_used : ℚ) (now : ℤ) (is_new : Bool)
    (latest_snapshot first_snapshot : Option PosSnap) : Option ℚ × Option ℚ × String :=
  let needs_leverage_calc :=
    match first_snapshot with
    | none => true
    | some fs => fs.leverage.isNone || decide (100 < fs.leverage.getD 0)
  if needs_leverage_calc = false then
    -- Dead safety branch: unreachable from the caller (reaching it needs the
    -- freeze branch's own condition); Python would read `latest_snapshot`.
    match latest_snapshot with
    | some ls => (ls.leverage, pyTruthyQ ls.equity_used, pyStrOr ls.calculation_method "margin_delta")
    | none => (none, none, "unknown")
  else
    let lookup_timestamp :=
      match first_snapshot with
      | some fs => match fs.opened_at with | some t => t | none => now
      | none => now
    let firstHasOpened :=
      match first_snapshot with
      | some fs => fs.opened_at.isSome
      | none => false
    if (!is_new && latest_snapshot.isSome) || firstHasOpened then
      match first_snapshot with
      | some fs =>
        match fs.opened_at with
        | some oa =>
          let equity_at_open := maxByTs EqSnap.timestamp
            (eqDb.filter (fun e => e.wallet_id = w ∧ e.timestamp ≤ oa))
          let equity_before_open := maxByTs EqSnap.timestamp
            (eqDb.filter (fun e => e.wallet_id = w ∧ e.timestamp < oa))
          match equity_at_open with
          | some e =>
            match e.initial_margin with
            | some margin_at_open =>
              let margin_before_open :=
                match equity_before_open with
                | some e2 => match e2.initial_margin with | some m => m | none => 0
                | none => 0
              hl_validate position_size_usd (margin_at_open - margin_before_open)
            | none =>
              match hl_get_previous_margin_used eqDb w lookup_timestamp with
              | none => (none, none, "unknown")
              | some pm => hl_validate position_size_usd (current_margin_used - pm)
          | none =>
            match hl_get_previous_margin_used eqDb w lookup_timestamp with
            | none => (none, none, "unknown")
            | some pm => hl_validate position_size_usd (current_margin_used - pm)
        | none =>
          match hl_get_previous_margin_used eqDb w lookup_timestamp with
          | none => (none, none, "unknown")
          | some pm => hl_validate position_size_usd (current_margin_used - pm)
      | none =>
        match hl_get_previous_margin_used eqDb w lookup_timestamp with
        | none => (none, none, "unknown")
        | some pm => hl_validate position_size_usd (current_margin_used - pm)
    else
      match hl_get_previous_margin_used eqDb w lookup_timestamp with
      | none => (none, none, "unknown")
      | some pm => hl_validate position_size_usd (current_margin_used - pm)

/-- Embedding of
`hyperliquid_leverage_calculator.calculate_leverage_from_margin_delta`.  The
freeze branch: when a prior snapshot exists and the first-ever positive-size
snapshot carries leverage at most 100, its stored values are returned (equity
through Python truthiness, method defaulting to `"margin_delta"`). -/
def hl_calculate_leverage_from_margin_delta (posDb : List PosSnap) (eqDb : List EqSnap)
    (w : ℕ) (sym : List Char) (position_size_usd current_margin_used : ℚ) (now : ℤ) :
    Option ℚ × Option ℚ × String :=
  let is_new := is_new_position posDb w sym now
  let latest_snapshot := hl_latest_snapshot posDb w sym now
  let first_snapshot :=
    match latest_snapshot with
    | some _ => hl_first_snapshot posDb w sym
    | none => none
  match first_snapshot with
  | some fs =>
    match fs.leverage with
    | some lv =>
      if lv ≤ 100 then
        (some lv, pyTruthyQ fs.equity_used, pyStrOr fs.calculation_method "margin_delta")
      else
        hl_after_freeze eqDb w position_size_usd current_margin_used now is_new
          latest_snapshot (some fs)
    | none =>
      hl_after_freeze eqDb w position_size_usd current_margin_used now is_new
        latest_snapshot (some fs)
  | none =>
    hl_after_freeze eqDb w position_size_usd current_margin_used now is_new
      latest_snapshot none

/-- The `opened_at` computation of `db/queries.insert_position_snapshot`:
only for a truthy `wallet_id` and positive size, the most recent prior
positive-size snapshot for `(wallet, symbol)` donates its truthy `opened_at`;
otherwise the snapshot's own timestamp is used. -/
def insert_snapshot_opened_at (posDb : List PosSnap) (wallet_id : Option ℕ)
    (sym : List Char) (size : ℚ) (now : ℤ) : Option ℤ :=
  match wallet_id with
  | some w =>
    if w ≠ 0 ∧ 0 < size then
      match maxByTs PosSnap.timestamp
          (posDb.filter (fun p =>
            p.wallet_id = w ∧ p.symbol = sym ∧ 0 < p.size ∧ p.timestamp < now)) with
      | some prev =>
        match prev.opened_at with
        | some t => some t
        | none => some now
      | none => some now
    else none
  | none => none

/-- A row of the `strategy_assignments` table. -/
structure StrategyAssignment where
  id : ℕ
  wallet_id : ℕ
  symbol : List Char
  strategy_id : ℕ
  start_at : ℤ
  end_at : Option ℤ
  active : Bool
  deriving DecidableEq

/-- The `end_at IS NULL OR end_at >= ts` disjunct of the resolver's filter. -/
def endAtOk (endAt : Option ℤ) (ts : ℤ) : Bool :=
  match endAt with
  | none => true
  | some e => decide (ts ≤ e)

/-- The filter of `resolve_strategy_id`: wallet, normalized symbol,
`start_at ≤ ts` and (`end_at IS NULL` or `end_at ≥ ts`). -/
def assignmentMatches (a : StrategyAssignment) (w : ℕ) (sym : List Char) (ts : ℤ) : Prop :=
  a.wallet_id = w ∧ a.symbol = sym ∧ a.start_at ≤ ts ∧ endAtOk a.end_at ts = true

instance (a : StrategyAssignment) (w : ℕ) (sym : List Char) (ts : ℤ) :
    Decidable (assignmentMatches a w sym ts) := by
  unfold assignmentMatches
  exact inferInstance

/-- Embedding of `db/queries_strategies.resolve_strategy_id`: among matching
assignments, the one with the latest `start_at` (`ORDER BY start_at DESC
... .first()`), else `None`. -/
def resolve_strategy_id (db : List StrategyAssignment) (w : ℕ) (symbol : List Char)
    (ts : ℤ) : Option ℕ :=
  let sym := normalize_symbol symbol
  (maxByTs StrategyAssignment.start_at
      (db.filter (fun a => decide (assignmentMatches a w sym ts)))).map
    StrategyAssignment.strategy_id

/-! Concrete inputs used to instantiate or refute the claims. -/

/-- The symbol `BTC-USDT`, already in normalized form. -/
def symB : List Char := ['B', 'T', 'C', '-', 'U', 'S', 'D', 'T']

/-- A `BUY` opening leg of size 1 at entry 50000 with open fee 5, at time 0. -/
def legOpen : ClosedTrade :=
  { id := 0, wallet_id := 1, symbol := symB, side := "BUY", size := 1,
    entry_price := 50000, exit_price := 0, trade_type := "market",
    open_fee := some 5, close_fee := none, liquidate_fee := none, exit_type := none,
    equity_used := none, leverage := none, strategy_id := none,
    reduce_only := some false, timestamp := 0 }

/-- A `SELL` closing leg of size 1 at exit 51000 with close fee 5, at time 100. -/
def legClose : ClosedTrade :=
  { id := 1, wallet_id := 1, symbol := symB, side := "SELL", size := 1,
    entry_price := 0, exit_price := 51000, trade_type := "market",
    open_fee := none, close_fee := some 5, liquidate_fee := none, exit_type := none,
    equity_used := none, leverage := none, strategy_id := none,
    reduce_only := some true, timestamp := 100 }

/-- A second closing leg of size 1, at time 200. -/
def legClose2 : ClosedTrade :=
  { id := 2, wallet_id := 1, symbol := symB, side := "SELL", size := 1,
    entry_price := 0, exit_price := 52000, trade_type := "market",
    open_fee := none, close_fee := none, liquidate_fee := none, exit_type := none,
    equity_used := none, leverage := none, strategy_id := none,
    reduce_only := some true, timestamp := 200 }

/-- A closing leg of size 1.0009 (within the 0.1% tolerance of size 1). -/
def legCloseNear : ClosedTrade :=
  { id := 3, wallet_id := 1, symbol := symB, side := "SELL", size := 10009/10000,
    entry_price := 0, exit_price := 51000, trade_type := "market",
    open_fee := none, close_fee := none, liquidate_fee := none, exit_type := none,
    equity_used := none, leverage := none, strategy_id := none,
    reduce_only := some true, timestamp := 100 }

/-- A closing leg of size 1.0011 (outside the 0.1% tolerance of size 1). -/
def legCloseFar : ClosedTrade :=
  { id := 4, wallet_id := 1, symbol := symB, side := "SELL", size := 10011/10000,
    entry_price := 0, exit_price := 51000, trade_type := "market",
    open_fee := none, close_fee := none, liquidate_fee := none, exit_type := none,
    equity_used := none, leverage := none, strategy_id := none,
    reduce_only := some true, timestamp := 100 }

/-- An opening leg of size 2, at time 1. -/
def legOpenB : ClosedTrade :=
  { id := 5, wallet_id := 1, symbol := symB, side := "BUY", size := 2,
    entry_price := 40000, exit_price := 0, trade_type := "market",
    open_fee := none, close_fee := none, liquidate_fee := none, exit_type := none,
    equity_used := none, leverage := none, strategy_id := none,
    reduce_only := some false, timestamp := 1 }

/-- A closing leg of size 1 at time 10 (shares its upsert key with
`legCloseKeyB`). -/
def legCloseKeyA : ClosedTrade :=
  { id := 6, wallet_id := 1, symbol := symB, side := "SELL", size := 1,
    entry_price := 0, exit_price := 41000, trade_type := "market",
    open_fee := none, close_fee := none, liquidate_fee := none, exit_type := none,
    equity_used := none, leverage := none, strategy_id := none,
    reduce_only := some true, timestamp := 10 }

/-- A closing leg of size 2 at time 10 (shares its upsert key with
`legCloseKeyA`). -/
def legCloseKeyB : ClosedTrade :=
  { id := 7, wallet_id := 1, symbol := symB, side := "SELL", size := 2,
    entry_price := 0, exit_price := 42000, trade_type := "market",
    open_fee := none, close_fee := none, liquidate_fee := none, exit_type := none,
    equity_used := none, leverage := none, strategy_id := none,
    reduce_only := some true, timestamp := 10 }

/-- A first-of-session snapshot with resolved leverage 60, equity 50, method
`"margin_delta"`, at time 0. -/
def snapResolved : PosSnap :=
  { wallet_id := 1, symbol := symB, timestamp := 0, size := 1,
    leverage := some 60, equity_used := some 50,
    calculation_method := some "margin_delta", opened_at := some 0 }

/-- A first-of-session snapshot with resolved leverage 5, equity 20, at time 0. -/
def snapResolvedSmall : PosSnap :=
  { wallet_id := 1, symbol := symB, timestamp := 0, size := 1,
    leverage := some 5, equity_used := some 20,
    calculation_method := some "margin_delta", opened_at := some 0 }

/-- A raw Apex payload with margin rate 0.1, size 1, entry price 100. -/
def rawTenth : RawPosition :=
  { customInitialMarginRate := some (1/10), size := some 1, entryPrice := some 100 }

/-- A positive-size snapshot at time 1 whose session opened at time 1. -/
def snapOldSession : PosSnap :=
  { wallet_id := 1, symbol := symB, timestamp := 1, size := 1,
    leverage := none, equity_used := none, calculation_method := none, opened_at := some 1 }

/-- The closing sentinel at time 2: size 0, no `opened_at`. -/
def snapClosedSentinel : PosSnap :=
  { wallet_id := 1, symbol := symB, timestamp := 2, size := 0,
    leverage := none, equity_used := none, calculation_method := none, opened_at := none }

/-- Assignment A of the attribution tie-break example: strategy 1, active
from time 0 to time 20. -/
def assignA : StrategyAssignment :=
  { id := 1, wallet_id := 1, symbol := symB, strategy_id := 1, start_at := 0,
    end_at := some 20, active := true }

/-- Assignment B of the attribution tie-break example: strategy 2, active
from time 10, open-ended. -/
def assignB : StrategyAssignment :=
  { id := 2, wallet_id := 1, symbol := symB, strategy_id := 2, start_at := 10,
    end_at := none, active := true }

/-- An equity snapshot of wallet 1 with `initial_margin` 100 at time −10. -/
def eqPrev : EqSnap :=
  { wallet_id := 1, timestamp := -10, initial_margin := some 100 }

/-- A raw Apex payload with every field missing. -/
def rawEmpty : RawPosition :=
  { customInitialMarginRate := none, size := none, entryPrice := none }

/-! Helper lemmas about the embedded queries and the upsert store. -/

lemma candidateOk_iff {o c : ClosedTrade} :
    candidateOk o c = true ↔
      o.timestamp < c.timestamp ∧ o.size ≠ 0 ∧ |o.size - c.size| / o.size ≤ 1/1000 := by
  simp [candidateOk, not_lt, and_assoc]

lemma candidateOk_eq_true {o c : ClosedTrade}
    (h : o.timestamp < c.timestamp ∧ o.size ≠ 0 ∧ |o.size - c.size| / o.size ≤ 1/1000) :
    candidateOk o c = true :=
  candidateOk_iff.mpr h

lemma candidateOk_eq_false {o c : ClosedTrade}
    (h : ¬(o.timestamp < c.timestamp ∧ o.size ≠ 0 ∧ |o.size - c.size| / o.size ≤ 1/1000)) :
    candidateOk o c = false :=
  Bool.eq_false_iff.mpr (fun ht => h (candidateOk_iff.mp ht))

lemma mem_openGroup {openers : List ClosedTrade} {w : ℕ} {sym : List Char}
    {o : ClosedTrade} :
    o ∈ openGroup openers w sym ↔
      o ∈ openers ∧ o.wallet_id = w ∧ normalize_symbol o.symbol = sym := by
  unfold openGroup
  rw [(List.perm_insertionSort tsGe _).mem_iff, List.mem_filter]
  simp [and_assoc]

lemma sorted_openGroup (openers : List ClosedTrade) (w : ℕ) (sym : List Char) :
    List.Sorted tsGe (openGroup openers w sym) :=
  List.sorted_insertionSort tsGe _

lemma find?_sorted_ts_max {l : List ClosedTrade} {p : ClosedTrade → Bool}
    {o : ClosedTrade} (hs : List.Sorted tsGe l) (h : l.find? p = some o) :
    ∀ b ∈ l, p b = true → b.timestamp ≤ o.timestamp := by
  induction l with
  | nil => simp at h
  | cons a l ih =>
    rw [List.sorted_cons] at hs
    intro b hb hpb
    by_cases hpa : p a = true
    · rw [List.find?_cons_of_pos _ hpa] at h
      cases h
      rcases List.mem_cons.mp hb with rfl | hbl
      · exact le_refl _
      · exact hs.1 b hbl
    · rw [List.find?_cons_of_neg _ hpa] at h
      rcases List.mem_cons.mp hb with rfl | hbl
      · exact absurd hpb hpa
      · exact ih hs.2 h b hbl hpb

lemma matchOpener_spec {openers : List ClosedTrade} {c o : ClosedTrade}
    (h : matchOpener openers c = some o) :
    (o ∈ openers ∧ o.wallet_id = c.wallet_id ∧
        normalize_symbol o.symbol = normalize_symbol c.symbol) ∧
      (o.timestamp < c.timestamp ∧ o.size ≠ 0 ∧ |o.size - c.size| / o.size ≤ 1/1000) ∧
      ∀ b ∈ openers, b.wallet_id = c.wallet_id →
        normalize_symbol b.symbol = normalize_symbol c.symbol →
        b.timestamp < c.timestamp → b.size ≠ 0 → |b.size - c.size| / b.size ≤ 1/1000 →
        b.timestamp ≤ o.timestamp := by
  unfold matchOpener at h
  have hmem := List.mem_of_find?_eq_some h
  have hp : candidateOk o c = true := by simpa using List.find?_some h
  have hok := candidateOk_iff.mp hp
  refine ⟨mem_openGroup.mp hmem, hok, ?_⟩
  intro b hb hbw hbs hbt hbz hbtol
  exact find?_sorted_ts_max (sorted_openGroup openers _ _) h b
    (mem_openGroup.mpr ⟨hb, hbw, hbs⟩) (candidateOk_iff.mpr ⟨hbt, hbz, hbtol⟩)

lemma matchedPairsAux_spec {openers : List ClosedTrade} :
    ∀ {cs : List ClosedTrade} {seen : List ℕ} {c o : ClosedTrade},
      (c, o) ∈ matchedPairsAux openers cs seen →
      c ∈ cs ∧ matchOpener openers c = some o := by
  intro cs
  induction cs with
  | nil => intro seen c o h; simp [matchedPairsAux] at h
  | cons a cs ih =>
    intro seen c o h
    unfold matchedPairsAux at h
    by_cases hseen : a.id ∈ seen
    · rw [if_pos hseen] at h
      exact ⟨List.mem_cons_of_mem _ (ih h).1, (ih h).2⟩
    · rw [if_neg hseen] at h
      cases hm : matchOpener openers a with
      | none =>
        rw [hm] at h
        exact ⟨List.mem_cons_of_mem _ (ih h).1, (ih h).2⟩
      | some o' =>
        rw [hm] at h
        rcases List.mem_cons.mp h with heq | htail
        · obtain ⟨rfl, rfl⟩ := Prod.mk.injEq .. ▸ heq
          exact ⟨List.mem_cons_self _ _, hm⟩
        · exact ⟨List.mem_cons_of_mem _ (ih htail).1, (ih htail).2⟩

lemma matchedPairs_spec {trades : List ClosedTrade} {c o : ClosedTrade}
    (h : (c, o) ∈ matchedPairs trades) :
    c ∈ closingLegs trades ∧ matchOpener (openingLegs trades) c = some o :=
  matchedPairsAux_spec h

lemma aggWrites_fill_count {trades : List ClosedTrade} {row : AggRow}
    (h : row ∈ aggWrites trades) : row.fill_count = 2 := by
  unfold aggWrites at h
  obtain ⟨p, -, hp⟩ := List.mem_map.mp h
  rw [← hp]
  rfl

lemma set_getElem?_self {α : Type} {l : List α} {i : ℕ} {v : α}
    (h : l[i]? = some v) : l.set i v = l := by
  induction l generalizing i with
  | nil => simp at h
  | cons a rest ih =>
    cases i with
    | zero =>
      simp only [List.getElem?_cons_zero, Option.some.injEq] at h
      simp [h]
    | succ n =>
      simp only [List.getElem?_cons_succ] at h
      simp [List.set, ih h]

lemma findKeyIdx_eq_none_iff {k : ℕ × ℤ × List Char} {l : List AggRow} :
    findKeyIdx k l = none ↔ ∀ r ∈ l, aggRowKey r ≠ k := by
  induction l with
  | nil => simp [findKeyIdx]
  | cons r rest ih =>
    by_cases hr : aggRowKey r = k <;> simp [findKeyIdx, hr, ih]

lemma findKeyIdx_some {k : ℕ × ℤ × List Char} {l : List AggRow} {i : ℕ}
    (h : findKeyIdx k l = some i) : ∃ r, l[i]? = some r ∧ aggRowKey r = k := by
  induction l generalizing i with
  | nil => simp [findKeyIdx] at h
  | cons r rest ih =>
    by_cases hr : aggRowKey r = k
    · rw [findKeyIdx, if_pos hr] at h
      cases h
      exact ⟨r, by simp, hr⟩
    · rw [findKeyIdx, if_neg hr] at h
      obtain ⟨j, hj, rfl⟩ := Option.map_eq_some'.mp h
      obtain ⟨s, hs, hks⟩ := ih hj
      exact ⟨s, by simpa using hs, hks⟩

lemma findKeyIdx_lt_length {k : ℕ × ℤ × List Char} {l : List AggRow} {i : ℕ}
    (h : findKeyIdx k l = some i) : i < l.length := by
  obtain ⟨r, hr, -⟩ := findKeyIdx_some h
  exact List.getElem?_eq_some.mp hr |>.1

lemma findKeyIdx_congr {k : ℕ × ℤ × List Char} {l₁ l₂ : List AggRow}
    (h : l₁.map aggRowKey = l₂.map aggRowKey) : findKeyIdx k l₁ = findKeyIdx k l₂ := by
  induction l₁ generalizing l₂ with
  | nil =>
    have h2 : l₂.map aggRowKey = [] := by simpa using h.symm
    rw [List.map_eq_nil_iff.mp h2]
  | cons r rest ih =>
    cases l₂ with
    | nil => simp at h
    | cons r₂ rest₂ =>
      simp only [List.map_cons, List.cons.injEq] at h
      rw [findKeyIdx, findKeyIdx, h.1, ih h.2]

lemma findKeyIdx_append_left {k : ℕ × ℤ × List Char} {l₁ l₂ : List AggRow} {i : ℕ}
    (h : findKeyIdx k l₁ = some i) : findKeyIdx k (l₁ ++ l₂) = some i := by
  induction l₁ generalizing i with
  | nil => simp [findKeyIdx] at h
  | cons r rest ih =>
    by_cases hr : aggRowKey r = k
    · rw [findKeyIdx, if_pos hr] at h
      cases h
      simp [findKeyIdx, hr]
    · rw [findKeyIdx, if_neg hr] at h
      obtain ⟨j, hj, rfl⟩ := Option.map_eq_some'.mp h
      simp [findKeyIdx, hr, ih hj]

lemma findKeyIdx_append_right {k : ℕ × ℤ × List Char} {l₁ l₂ : List AggRow}
    (h : findKeyIdx k l₁ = none) :
    findKeyIdx k (l₁ ++ l₂) = (findKeyIdx k l₂).map (fun i => l₁.length + i) := by
  induction l₁ with
  | nil =>
    simp only [List.nil_append, List.length_nil]
    cases hf : findKeyIdx k l₂ <;> simp [hf]
  | cons r rest ih =>
    rw [findKeyIdx] at h
    by_cases hr : aggRowKey r = k
    · rw [if_pos hr] at h
      cases h
    · rw [if_neg hr] at h
      have hrest : findKeyIdx k rest = none := by
        cases hfr : findKeyIdx k rest <;> simp [hfr] at h ⊢
      rw [List.cons_append, findKeyIdx, if_neg hr, ih hrest]
      cases findKeyIdx k l₂ with
      | none => rfl
      | some j => simp [List.length_cons]; omega

lemma findKeyIdx_of_nodup {l : List AggRow} (hn : (l.map aggRowKey).Nodup) {v : AggRow}
    (hv : v ∈ l) : ∃ j, findKeyIdx (aggRowKey v) l = some j ∧ l[j]? = some v := by
  induction l with
  | nil => simp at hv
  | cons r rest ih =>
    rw [List.map_cons, List.nodup_cons] at hn
    rcases List.mem_cons.mp hv with rfl | hvr
    · exact ⟨0, by simp [findKeyIdx], by simp⟩
    · by_cases hr : aggRowKey r = aggRowKey v
      · exact absurd (hr ▸ List.mem_map_of_mem aggRowKey hvr) hn.1
      · obtain ⟨j, hj, hgj⟩ := ih hn.2 hvr
        exact ⟨j + 1, by simp [findKeyIdx, hr, hj], by simpa using hgj⟩

lemma runAux_pend (start : List AggRow) :
    ∀ (ws : List AggRow) (img pend : List AggRow),
      (runAux start (img, pend) ws).2 =
        pend ++ ws.filter (fun v => (findKeyIdx (aggRowKey v) start).isNone) := by
  intro ws
  induction ws with
  | nil => intro img pend; simp [runAux]
  | cons v ws ih =>
    intro img pend
    rw [runAux]
    cases hf : findKeyIdx (aggRowKey v) start with
    | some i => simp [ih, hf, List.filter_cons]
    | none => simp [ih, hf, List.filter_cons]

lemma runAux_keys (start : List AggRow) :
    ∀ (ws : List AggRow) (img pend : List AggRow),
      img.map aggRowKey = start.map aggRowKey →
      ((runAux start (img, pend) ws).1).map aggRowKey = start.map aggRowKey := by
  intro ws
  induction ws with
  | nil => intro img pend h; simpa [runAux] using h
  | cons v ws ih =>
    intro img pend h
    rw [runAux]
    cases hf : findKeyIdx (aggRowKey v) start with
    | some i =>
      refine ih _ _ ?_
      obtain ⟨r, hri, hrk⟩ := findKeyIdx_some hf
      have hik : (img.map aggRowKey)[i]? = some (aggRowKey v) := by
        rw [h, List.getElem?_map, hri]
        simp [hrk]
      rw [List.map_set, set_getElem?_self hik, h]
    | none => exact ih _ _ h

lemma runAux_preserve (start : List AggRow) :
    ∀ (ws : List AggRow) (img pend : List AggRow) (i : ℕ),
      (∀ w ∈ ws, findKeyIdx (aggRowKey w) start ≠ some i) →
      ((runAux start (img, pend) ws).1)[i]? = img[i]? := by
  intro ws
  induction ws with
  | nil => intro img pend i _; simp [runAux]
  | cons w ws ih =>
    intro img pend i h
    rw [runAux]
    cases hf : findKeyIdx (aggRowKey w) start with
    | some j =>
      have hji : j ≠ i := fun hji => h w (List.mem_cons_self _ _) (hji ▸ hf)
      rw [ih _ _ _ (fun u hu => h u (List.mem_cons_of_mem _ hu))]
      simp [List.getElem?_set, hji]
    | none => exact ih _ _ _ (fun u hu => h u (List.mem_cons_of_mem _ hu))

lemma runAux_get_set (start : List AggRow) :
    ∀ (ws : List AggRow) (img pend : List AggRow) (v : AggRow) (i : ℕ),
      (ws.map aggRowKey).Nodup → v ∈ ws →
      findKeyIdx (aggRowKey v) start = some i → i < img.length →
      ((runAux start (img, pend) ws).1)[i]? = some v := by
  intro ws
  induction ws with
  | nil => intro img pend v i _ hv; simp at hv
  | cons u ws ih =>
    intro img pend v i hn hv hf hi
    rw [List.map_cons, List.nodup_cons] at hn
    rcases List.mem_cons.mp hv with rfl | hvw
    · rw [runAux, hf]
      have hrest : ∀ w ∈ ws, findKeyIdx (aggRowKey w) start ≠ some i := by
        intro w hw heq
        obtain ⟨r, hri, hrk⟩ := findKeyIdx_some heq
        obtain ⟨r', hri', hrk'⟩ := findKeyIdx_some hf
        rw [hri] at hri'
        cases hri'
        refine hn.1 ?_
        rw [show aggRowKey v = aggRowKey w from hrk'.symm.trans hrk]
        exact List.mem_map_of_mem aggRowKey hw
      rw [runAux_preserve start ws _ _ i hrest]
      simp [List.getElem?_set, hi]
    · rw [runAux]
      cases hfu : findKeyIdx (aggRowKey u) start with
      | some j =>
        exact ih _ _ _ _ hn.2 hvw hf (by simpa using hi)
      | none => exact ih _ _ _ _ hn.2 hvw hf hi

lemma runAux_noop (start : List AggRow) :
    ∀ (ws : List AggRow) (img pend : List AggRow),
      (∀ v ∈ ws, ∃ i, findKeyIdx (aggRowKey v) start = some i ∧ img[i]? = some v) →
      runAux start (img, pend) ws = (img, pend) := by
  intro ws
  induction ws with
  | nil => intro img pend _; rfl
  | cons v ws ih =>
    intro img pend h
    obtain ⟨i, hf, hg⟩ := h v (List.mem_cons_self _ _)
    rw [runAux, hf]
    show runAux start (img.set i v, pend) ws = (img, pend)
    rw [set_getElem?_self hg]
    exact ih _ _ (fun u hu => h u (List.mem_cons_of_mem _ hu))

lemma runAux_all_none (start : List AggRow) :
    ∀ (ws : List AggRow) (img pend : List AggRow),
      (∀ v ∈ ws, findKeyIdx (aggRowKey v) start = none) →
      (runAux start (img, pend) ws).1 = img := by
  intro ws
  induction ws with
  | nil => intro img pend _; rfl
  | cons v ws ih =>
    intro img pend h
    rw [runAux, h v (List.mem_cons_self _ _)]
    exact ih _ _ (fun u hu => h u (List.mem_cons_of_mem _ hu))

lemma runUpserts_nil_start (ws : List AggRow) : runUpserts [] ws = ws := by
  have hnone : ∀ v ∈ ws, findKeyIdx (aggRowKey v) ([] : List AggRow) = none := by
    intro v _
    rfl
  have hfilter : ws.filter (fun v => (findKeyIdx (aggRowKey v) ([] : List AggRow)).isNone) =
      ws := by
    apply List.filter_eq_self.mpr
    intro v hv
    show (findKeyIdx (aggRowKey v) ([] : List AggRow)).isNone = true
    rw [hnone v hv]
    rfl
  unfold runUpserts
  rw [runAux_all_none [] ws [] [] hnone, runAux_pend, hfilter]
  rfl

lemma runUpserts_idem {start ws : List AggRow} (hn : (ws.map aggRowKey).Nodup) :
    runUpserts (runUpserts start ws) ws = runUpserts start ws := by
  set I : List AggRow := (runAux start (start, []) ws).1 with hI
  set P : List AggRow := (runAux start (start, []) ws).2 with hP
  have ht1 : runUpserts start ws = I ++ P := rfl
  have hIkeys : I.map aggRowKey = start.map aggRowKey := runAux_keys start ws start [] rfl
  have hIlen : I.length = start.length := by
    have := congrArg List.length hIkeys
    simpa using this
  have hPfilter : P = ws.filter (fun v => (findKeyIdx (aggRowKey v) start).isNone) := by
    rw [hP, runAux_pend]
    rfl
  have hH : ∀ v ∈ ws, ∃ i, findKeyIdx (aggRowKey v) (I ++ P) = some i ∧
      (I ++ P)[i]? = some v := by
    intro v hv
    cases hf : findKeyIdx (aggRowKey v) start with
    | some i =>
      have hIget : I[i]? = some v :=
        runAux_get_set start ws start [] v i hn hv hf (findKeyIdx_lt_length hf)
      have hfI : findKeyIdx (aggRowKey v) I = some i := by
        rw [findKeyIdx_congr hIkeys, hf]
      refine ⟨i, findKeyIdx_append_left hfI, ?_⟩
      rw [List.getElem?_append_left (hIlen ▸ findKeyIdx_lt_length hf)]
      exact hIget
    | none =>
      have hvP : v ∈ P := by
        rw [hPfilter, List.mem_filter]
        exact ⟨hv, by rw [hf]; rfl⟩
      have hPn : (P.map aggRowKey).Nodup :=
        hn.sublist ((hPfilter ▸ List.filter_sublist ws).map aggRowKey)
      obtain ⟨j, hfP, hPj⟩ := findKeyIdx_of_nodup hPn hvP
      have hfInone : findKeyIdx (aggRowKey v) I = none := by
        rw [findKeyIdx_congr hIkeys, hf]
      refine ⟨I.length + j, ?_, ?_⟩
      · rw [findKeyIdx_append_right hfInone, hfP]
        rfl
      · rw [List.getElem?_append_right (Nat.le_add_right _ _)]
        simpa using hPj
  show runUpserts (I ++ P) ws = I ++ P
  unfold runUpserts
  rw [runAux_noop (I ++ P) ws (I ++ P) [] hH]
  simp

lemma maxByTs_cons_none {α : Type} (ts : α → ℤ) {x : α} {xs : List α}
    (hm : maxByTs ts xs = none) : maxByTs ts (x :: xs) = some x := by
  unfold maxByTs
  rw [hm]

lemma maxByTs_cons_some {α : Type} (ts : α → ℤ) {x z : α} {xs : List α}
    (hm : maxByTs ts xs = some z) :
    maxByTs ts (x :: xs) = if ts x < ts z then some z else some x := by
  unfold maxByTs
  rw [hm]

lemma maxByTs_eq_none {α : Type} (ts : α → ℤ) {l : List α} :
    maxByTs ts l = none ↔ l = [] := by
  cases l with
  | nil => simp [maxByTs]
  | cons x xs =>
    cases hm : maxByTs ts xs with
    | none => simp [maxByTs_cons_none ts hm]
    | some z =>
      rw [maxByTs_cons_some ts hm]
      by_cases hlt : ts x < ts z <;> simp [hlt]

lemma maxByTs_mem {α : Type} (ts : α → ℤ) {l : List α} {y : α}
    (h : maxByTs ts l = some y) : y ∈ l := by
  induction l generalizing y with
  | nil => simp [maxByTs] at h
  | cons x xs ih =>
    cases hm : maxByTs ts xs with
    | none =>
      rw [maxByTs_cons_none ts hm] at h
      cases h
      exact List.mem_cons_self _ _
    | some z =>
      rw [maxByTs_cons_some ts hm] at h
      by_cases hlt : ts x < ts z
      · rw [if_pos hlt] at h
        cases h
        exact List.mem_cons_of_mem _ (ih hm)
      · rw [if_neg hlt] at h
        cases h
        exact List.mem_cons_self _ _

lemma maxByTs_le {α : Type} (ts : α → ℤ) {l : List α} {y : α}
    (h : maxByTs ts l = some y) : ∀ x ∈ l, ts x ≤ ts y := by
  induction l generalizing y with
  | nil => simp [maxByTs] at h
  | cons a xs ih =>
    intro x hx
    cases hm : maxByTs ts xs with
    | none =>
      rw [maxByTs_cons_none ts hm] at h
      cases h
      rcases List.mem_cons.mp hx with rfl | hxs
      · exact le_refl _
      · rw [maxByTs_eq_none ts] at hm
        rw [hm] at hxs
        cases hxs
    | some z =>
      rw [maxByTs_cons_some ts hm] at h
      by_cases hlt : ts a < ts z
      · rw [if_pos hlt] at h
        cases h
        rcases List.mem_cons.mp hx with rfl | hxs
        · exact le_of_lt hlt
        · exact ih hm x hxs
      · rw [if_neg hlt] at h
        cases h
        rcases List.mem_cons.mp hx with rfl | hxs
        · exact le_refl _
        · exact (ih hm x hxs).trans (not_lt.mp hlt)

/-! Claim theorems. -/

/-- C1 (amended): `sync_aggregated_trades` does not consume a matched opening
leg.  Every matched pair joins a closing leg to an opening leg of its
`(wallet, normalized symbol)` group that strictly precedes it and, among all
in-tolerance preceding candidates of the group, has maximal timestamp; the
selection depends only on the closing leg and the opening group, so distinct
closing legs may be matched to the same opening leg. -/
theorem claim1_matcher_not_consuming :
    ∀ trades c o, (c, o) ∈ matchedPairs trades →
      o ∈ openingLegs trades ∧ o.wallet_id = c.wallet_id ∧
        normalize_symbol o.symbol = normalize_symbol c.symbol ∧
        o.timestamp < c.timestamp ∧
        ∀ b ∈ openingLegs trades, b.wallet_id = c.wallet_id →
          normalize_symbol b.symbol = normalize_symbol c.symbol →
          b.timestamp < c.timestamp → b.size ≠ 0 →
          |b.size - c.size| / b.size ≤ 1/1000 → b.timestamp ≤ o.timestamp := by
  intro trades c o h
  obtain ⟨-, hm⟩ := matchedPairs_spec h
  obtain ⟨⟨ho, how, hos⟩, ⟨ht, -, -⟩, hmax⟩ := matchOpener_spec hm
  exact ⟨ho, how, hos, ht, hmax⟩

/-- C1 counterexample: two distinct closing legs both produce aggregated
trades from the same input set and are matched to the same opening leg. -/
theorem claim1_counterexample :
    matchedPairs [legOpen, legClose, legClose2] =
      [(legClose, legOpen), (legClose2, legOpen)] ∧ legClose ≠ legClose2 := by
  constructor
  · have h1 : candidateOk legOpen legClose = true :=
      candidateOk_eq_true (by norm_num [legOpen, legClose])
    have h2 : candidateOk legOpen legClose2 = true :=
      candidateOk_eq_true (by norm_num [legOpen, legClose2])
    simp only [legOpen, legClose, legClose2, symB] at h1 h2
    simp [matchedPairs, matchedPairsAux, closingLegs, openingLegs, matchOpener, openGroup,
      List.insertionSort, List.orderedInsert, normalize_symbol, symB,
      legOpen, legClose, legClose2, List.filter, List.find?, tsGe, pyUpperChar, h1, h2]
  · intro h
    have hid := congrArg ClosedTrade.id h
    simp [legClose, legClose2] at hid

/-- C1 witness: the first closing leg of the counterexample input is matched,
and the theorem yields that its opener belongs to the opening legs and
precedes it. -/
theorem claim1_witness :
    (legClose, legOpen) ∈ matchedPairs [legOpen, legClose, legClose2] ∧
      legOpen ∈ openingLegs [legOpen, legClose, legClose2] ∧
      legOpen.timestamp < legClose.timestamp := by
  have hmem : (legClose, legOpen) ∈ matchedPairs [legOpen, legClose, legClose2] := by
    have h1 : candidateOk legOpen legClose = true :=
      candidateOk_eq_true (by norm_num [legOpen, legClose])
    have h2 : candidateOk legOpen legClose2 = true :=
      candidateOk_eq_true (by norm_num [legOpen, legClose2])
    simp only [legOpen, legClose, legClose2, symB] at h1 h2
    simp [matchedPairs, matchedPairsAux, closingLegs, openingLegs, matchOpener, openGroup,
      List.insertionSort, List.orderedInsert, normalize_symbol, symB,
      legOpen, legClose, legClose2, List.filter, List.find?, tsGe, pyUpperChar, h1, h2]
  have hc := claim1_matcher_not_consuming _ _ _ hmem
  exact ⟨hmem, hc.1, hc.2.2.2.1⟩

/-- C2: every matched pair yields side `LONG` exactly when the opener's side
is `BUY`, and `total_pnl` is the directional price difference times the trade
size minus the opener's open fee plus the closer's close and liquidate fees
(absent fees count as 0); on the round-trip example (open BUY 1.0 at 50000
with fee 5, close SELL 1.0 at 51000 with fee 5) the stored row has side
`LONG` and `total_pnl` 990. -/
theorem claim2_side_and_pnl :
    (∀ trades c o, (c, o) ∈ matchedPairs trades →
      (mkRow o c).side = (if o.side = "BUY" then "LONG" else "SHORT") ∧
      (mkRow o c).total_pnl =
        (if o.side = "BUY" then (c.exit_price - o.entry_price) * |c.size|
          else (o.entry_price - c.exit_price) * |c.size|) -
          (o.open_fee.getD 0 + c.close_fee.getD 0 + c.liquidate_fee.getD 0)) ∧
    (sync_aggregated_trades [legOpen, legClose] none []).1 = [mkRow legOpen legClose] ∧
    (mkRow legOpen legClose).side = "LONG" ∧
    (mkRow legOpen legClose).total_pnl = 990 := by
  refine ⟨?_, ?_, ?_, ?_⟩
  · intro trades c o _
    by_cases hb : o.side = "BUY" <;> simp [mkRow, hb]
  · have h1 : candidateOk legOpen legClose = true :=
      candidateOk_eq_true (by norm_num [legOpen, legClose])
    simp only [legOpen, legClose, symB] at h1
    have hpairs : matchedPairs [legOpen, legClose] = [(legClose, legOpen)] := by
      simp [matchedPairs, matchedPairsAux, closingLegs, openingLegs, matchOpener,
        openGroup, List.insertionSort, List.orderedInsert, normalize_symbol, symB,
        legOpen, legClose, List.filter, List.find?, tsGe, pyUpperChar, h1]
    show runUpserts [] (aggWrites (syncInput [legOpen, legClose] none)) = _
    rw [runUpserts_nil_start]
    unfold aggWrites syncInput
    rw [hpairs]
    rfl
  · simp [mkRow, legOpen, legClose]
  · simp [mkRow, legOpen, legClose]
    norm_num

/-- C2 witness: the round-trip example pair is matched, and the theorem
evaluates its side and P&L. -/
theorem claim2_witness :
    (legClose, legOpen) ∈ matchedPairs [legOpen, legClose] ∧
      (mkRow legOpen legClose).side = (if legOpen.side = "BUY" then "LONG" else "SHORT") := by
  have hmem : (legClose, legOpen) ∈ matchedPairs [legOpen, legClose] := by
    have h1 : candidateOk legOpen legClose = true :=
      candidateOk_eq_true (by norm_num [legOpen, legClose])
    simp only [legOpen, legClose, symB] at h1
    simp [matchedPairs, matchedPairsAux, closingLegs, openingLegs, matchOpener, openGroup,
      List.insertionSort, List.orderedInsert, normalize_symbol, symB,
      legOpen, legClose, List.filter, List.find?, tsGe, pyUpperChar, h1]
  exact ⟨hmem, ((claim2_side_and_pnl.1 _ _ _ hmem).1)⟩

/-- C3: a matched pair always satisfies the inclusive size tolerance
`|opener.size − closer.size| / opener.size ≤ 0.001`; against an opener of
size 1.0000 a closer of size 1.0009 matches while one of size 1.0011
produces no aggregate at all. -/
theorem claim3_size_tolerance :
    (∀ trades c o, (c, o) ∈ matchedPairs trades →
      |o.size - c.size| / o.size ≤ 1/1000) ∧
    matchedPairs [legOpen, legCloseNear] = [(legCloseNear, legOpen)] ∧
    matchedPairs [legOpen, legCloseFar] = [] := by
  refine ⟨?_, ?_, ?_⟩
  · intro trades c o h
    exact ((matchOpener_spec (matchedPairs_spec h).2).2.1).2.2
  · have h1 : candidateOk legOpen legCloseNear = true :=
      candidateOk_eq_true (by norm_num [legOpen, legCloseNear, abs_le])
    simp only [legOpen, legCloseNear, symB] at h1
    simp [matchedPairs, matchedPairsAux, closingLegs, openingLegs, matchOpener, openGroup,
      List.insertionSort, List.orderedInsert, normalize_symbol, symB,
      legOpen, legCloseNear, List.filter, List.find?, tsGe, pyUpperChar, h1]
  · have h1 : candidateOk legOpen legCloseFar = false :=
      candidateOk_eq_false (by norm_num [legOpen, legCloseFar, abs_le])
    simp only [legOpen, legCloseFar, symB] at h1
    simp [matchedPairs, matchedPairsAux, closingLegs, openingLegs, matchOpener, openGroup,
      List.insertionSort, List.orderedInsert, normalize_symbol, symB,
      legOpen, legCloseFar, List.filter, List.find?, tsGe, pyUpperChar, h1]

/-- C3 witness: the in-tolerance pair is matched and the theorem bounds its
relative size difference. -/
theorem claim3_witness :
    (legCloseNear, legOpen) ∈ matchedPairs [legOpen, legCloseNear] ∧
      |legOpen.size - legCloseNear.size| / legOpen.size ≤ 1/1000 := by
  have hmem : (legCloseNear, legOpen) ∈ matchedPairs [legOpen, legCloseNear] := by
    rw [claim3_size_tolerance.2.1]
    exact List.mem_singleton.mpr rfl
  exact ⟨hmem, claim3_size_tolerance.1 _ _ _ hmem⟩

/-- C10: a zero-size opening leg is never selected as a match candidate, so
the tolerance check's division by the opener's size is never a division by
zero. -/
theorem claim10_no_zero_size_opener :
    ∀ trades c o, (c, o) ∈ matchedPairs trades → o.size ≠ 0 := by
  intro trades c o h
  exact ((matchOpener_spec (matchedPairs_spec h).2).2.1).2.1

/-- C10 witness: the matched opener of the round-trip example has nonzero
size. -/
theorem claim10_witness :
    (legClose, legOpen) ∈ matchedPairs [legOpen, legClose] ∧ legOpen.size ≠ 0 := by
  have hmem : (legClose, legOpen) ∈ matchedPairs [legOpen, legClose] := by
    have h1 : candidateOk legOpen legClose = true :=
      candidateOk_eq_true (by norm_num [legOpen, legClose])
    simp only [legOpen, legClose, symB] at h1
    simp [matchedPairs, matchedPairsAux, closingLegs, openingLegs, matchOpener, openGroup,
      List.insertionSort, List.orderedInsert, normalize_symbol, symB,
      legOpen, legClose, List.filter, List.find?, tsGe, pyUpperChar, h1]
  exact ⟨hmem, claim10_no_zero_size_opener _ _ _ hmem⟩

/-- C4 (amended): when the matched closing legs carry pairwise-distinct
`(wallet_id, closing timestamp, normalized symbol)` keys, a second run of
`sync_aggregated_trades` over an unchanged closed-trades set reproduces the
table exactly (every upsert finds the row it wrote and rewrites the same
values: no insert, no drift); a single run over an empty table stores exactly
one `AggregatedTrade` per matched closing leg, each with `fill_count = 2` and
key columns equal to the matched closer's upsert key.  When two matched
closing legs share the key, the `autoflush=False` session makes the pending
first insert invisible to the second leg's `existing` query, so the first run
inserts duplicate-key rows and reruns are not idempotent. -/
theorem claim4_idempotent_upsert :
    (∀ trades w table, ((aggWrites (syncInput trades w)).map aggRowKey).Nodup →
      (sync_aggregated_trades trades w (sync_aggregated_trades trades w table).1).1 =
        (sync_aggregated_trades trades w table).1) ∧
    (∀ trades w, (sync_aggregated_trades trades w []).1 =
      (matchedPairs (syncInput trades w)).map (fun p => mkRow p.2 p.1)) ∧
    (∀ trades w row, row ∈ (sync_aggregated_trades trades w []).1 →
      row.fill_count = 2) ∧
    (∀ c o : ClosedTrade, aggRowKey (mkRow o c) = aggKey c) := by
  refine ⟨?_, ?_, ?_, ?_⟩
  · intro trades w table hn
    exact runUpserts_idem hn
  · intro trades w
    show runUpserts [] (aggWrites (syncInput trades w)) = _
    rw [runUpserts_nil_start]
    rfl
  · intro trades w row h
    have hempty : (sync_aggregated_trades trades w []).1 = aggWrites (syncInput trades w) := by
      show runUpserts [] (aggWrites (syncInput trades w)) = _
      rw [runUpserts_nil_start]
    exact aggWrites_fill_count (hempty ▸ h)
  · intro c o
    rfl

/-- C4 counterexample: two distinct matched closing legs share the upsert key
`(wallet 1, time 10, BTC-USDT)`.  The first run over an empty table inserts
two duplicate-key rows (the pending insert is invisible to the later
`existing` query under the `autoflush=False` session), and a second run over
the unchanged closed-trades set rewrites the first duplicate with the last
closer's values — its fields, including `total_pnl`, change between runs. -/
theorem claim4_counterexample :
    (sync_aggregated_trades [legOpen, legOpenB, legCloseKeyA, legCloseKeyB] none []).1 =
      [mkRow legOpen legCloseKeyA, mkRow legOpenB legCloseKeyB] ∧
    (sync_aggregated_trades [legOpen, legOpenB, legCloseKeyA, legCloseKeyB] none
        [mkRow legOpen legCloseKeyA, mkRow legOpenB legCloseKeyB]).1 =
      [mkRow legOpenB legCloseKeyB, mkRow legOpenB legCloseKeyB] ∧
    aggRowKey (mkRow legOpen legCloseKeyA) = aggRowKey (mkRow legOpenB legCloseKeyB) ∧
    mkRow legOpen legCloseKeyA ≠ mkRow legOpenB legCloseKeyB := by
  have h1 : candidateOk legOpen legCloseKeyA = true :=
    candidateOk_eq_true (by norm_num [legOpen, legCloseKeyA])
  have h2 : candidateOk legOpenB legCloseKeyA = false :=
    candidateOk_eq_false (by norm_num [legOpenB, legCloseKeyA, abs_le])
  have h3 : candidateOk legOpenB legCloseKeyB = true :=
    candidateOk_eq_true (by norm_num [legOpenB, legCloseKeyB])
  have h4 : candidateOk legOpen legCloseKeyB = false :=
    candidateOk_eq_false (by norm_num [legOpen, legCloseKeyB, abs_le])
  simp only [legOpen, legOpenB, legCloseKeyA, legCloseKeyB, symB] at h1 h2 h3 h4
  have hpairs : matchedPairs [legOpen, legOpenB, legCloseKeyA, legCloseKeyB] =
      [(legCloseKeyA, legOpen), (legCloseKeyB, legOpenB)] := by
    simp [matchedPairs, matchedPairsAux, closingLegs, openingLegs, matchOpener, openGroup,
      List.insertionSort, List.orderedInsert, normalize_symbol, symB,
      legOpen, legOpenB, legCloseKeyA, legCloseKeyB, List.filter, List.find?, tsGe,
      pyUpperChar, h1, h2, h3, h4]
  have hwrites : aggWrites [legOpen, legOpenB, legCloseKeyA, legCloseKeyB] =
      [mkRow legOpen legCloseKeyA, mkRow legOpenB legCloseKeyB] := by
    unfold aggWrites
    rw [hpairs]
    rfl
  have hkeyA : aggRowKey (mkRow legOpen legCloseKeyA) = (1, 10, symB) := by
    simp [aggRowKey, mkRow, legOpen, legCloseKeyA, normalize_symbol, symB, pyUpperChar]
  have hkeyB : aggRowKey (mkRow legOpenB legCloseKeyB) = (1, 10, symB) := by
    simp [aggRowKey, mkRow, legOpenB, legCloseKeyB, normalize_symbol, symB, pyUpperChar]
  refine ⟨?_, ?_, ?_, ?_⟩
  · show runUpserts [] (aggWrites (syncInput _ none)) = _
    rw [show syncInput [legOpen, legOpenB, legCloseKeyA, legCloseKeyB] none =
        [legOpen, legOpenB, legCloseKeyA, legCloseKeyB] from rfl]
    rw [runUpserts_nil_start, hwrites]
  · show runUpserts [mkRow legOpen legCloseKeyA, mkRow legOpenB legCloseKeyB]
        (aggWrites (syncInput _ none)) = _
    rw [show syncInput [legOpen, legOpenB, legCloseKeyA, legCloseKeyB] none =
        [legOpen, legOpenB, legCloseKeyA, legCloseKeyB] from rfl]
    rw [hwrites]
    unfold runUpserts
    rw [show runAux [mkRow legOpen legCloseKeyA, mkRow legOpenB legCloseKeyB]
        ([mkRow legOpen legCloseKeyA, mkRow legOpenB legCloseKeyB], [])
        [mkRow legOpen legCloseKeyA, mkRow legOpenB legCloseKeyB] =
        ([mkRow legOpenB legCloseKeyB, mkRow legOpenB legCloseKeyB], []) by
      rw [runAux, show findKeyIdx (aggRowKey (mkRow legOpen legCloseKeyA))
          [mkRow legOpen legCloseKeyA, mkRow legOpenB legCloseKeyB] = some 0 by
        rw [findKeyIdx, if_pos rfl]]
      rw [runAux, show findKeyIdx (aggRowKey (mkRow legOpenB legCloseKeyB))
          [mkRow legOpen legCloseKeyA, mkRow legOpenB legCloseKeyB] = some 0 by
        rw [findKeyIdx, if_pos (by rw [hkeyA, hkeyB])]]
      rfl]
    rfl
  · rw [hkeyA, hkeyB]
  · intro h
    have hh := congrArg AggRow.avg_exit_price h
    simp [mkRow, legOpen, legOpenB, legCloseKeyA, legCloseKeyB] at hh

/-- C4 witness: on the round-trip example the single write's key is
duplicate-free, rerunning reproduces the table exactly, and the stored row's
key columns equal the closer's upsert key. -/
theorem claim4_witness :
    ((aggWrites (syncInput [legOpen, legClose] none)).map aggRowKey).Nodup ∧
      (sync_aggregated_trades [legOpen, legClose] none
          (sync_aggregated_trades [legOpen, legClose] none []).1).1 =
        (sync_aggregated_trades [legOpen, legClose] none []).1 ∧
      aggRowKey (mkRow legOpen legClose) = aggKey legClose := by
  have hnodup : ((aggWrites (syncInput [legOpen, legClose] none)).map aggRowKey).Nodup := by
    have h1 : candidateOk legOpen legClose = true :=
      candidateOk_eq_true (by norm_num [legOpen, legClose])
    simp only [legOpen, legClose, symB] at h1
    have hpairs : matchedPairs [legOpen, legClose] = [(legClose, legOpen)] := by
      simp [matchedPairs, matchedPairsAux, closingLegs, openingLegs, matchOpener,
        openGroup, List.insertionSort, List.orderedInsert, normalize_symbol, symB,
        legOpen, legClose, List.filter, List.find?, tsGe, pyUpperChar, h1]
    show ((aggWrites [legOpen, legClose]).map aggRowKey).Nodup
    unfold aggWrites
    rw [hpairs]
    simp
  exact ⟨hnodup, claim4_idempotent_upsert.1 [legOpen, legClose] none [] hnodup,
    claim4_idempotent_upsert.2.2.2 legClose legOpen⟩

/-- C6: evaluation of the `opened_at` computation of
`insert_position_snapshot` at the failing input.  The most recent prior
snapshot for the key is the size-0 closing sentinel at time 2, so by the
claimed (and spec-intended) rule a snapshot at time 3 starts a new session
with `opened_at = 3`; the code skips zero-size rows in its query and instead
inherits `opened_at = 1` from the closed session. -/
theorem claim6_code_eval :
    insert_snapshot_opened_at [snapOldSession, snapClosedSentinel] (some 1) symB 1 3 =
      some 1 ∧
    maxByTs PosSnap.timestamp
        (([snapOldSession, snapClosedSentinel]).filter
          (fun p => p.wallet_id = 1 ∧ p.symbol = symB ∧ p.timestamp < 3)) =
      some snapClosedSentinel ∧
    snapClosedSentinel.size = 0 ∧
    (some (1 : ℤ)) ≠ some 3 := by
  refine ⟨?_, ?_, ?_, ?_⟩
  · simp [insert_snapshot_opened_at, maxByTs, snapOldSession, snapClosedSentinel,
      List.filter, symB]
  · simp [maxByTs, snapOldSession, snapClosedSentinel, List.filter, symB]
  · simp [snapClosedSentinel]
  · simp

/-- C9 (amended): `normalize_symbol` maps `BTC_USDT` and `BTCUSDT` to
`BTC-USDT`, but a bare base symbol with no separator and no recognized quote
suffix, such as `BTC`, is returned unchanged. -/
theorem claim9_normalize :
    normalize_symbol ['B', 'T', 'C', '_', 'U', 'S', 'D', 'T'] = symB ∧
    normalize_symbol ['B', 'T', 'C', 'U', 'S', 'D', 'T'] = symB ∧
    normalize_symbol ['B', 'T', 'C'] = ['B', 'T', 'C'] := by
  refine ⟨?_, ?_, ?_⟩ <;> decide

/-- C9 counterexample: `normalize_symbol "BTC"` is `"BTC"`, not the
`"BTC-USDT"` the claim requires. -/
theorem claim9_counterexample :
    normalize_symbol ['B', 'T', 'C'] = ['B', 'T', 'C'] ∧
      (['B', 'T', 'C'] : List Char) ≠ symB := by
  refine ⟨by decide, by decide⟩

/-- C5 (amended): only the Hyperliquid calculator freezes, and it freezes on
the earliest positive-size snapshot of the whole `(wallet, symbol)` history:
whenever any prior snapshot exists and that earliest snapshot carries a
stored leverage at most 100, the calculator returns its stored leverage,
equity_used (`None` when stored as 0) and calculation_method (defaulting to
`"margin_delta"` when unset) without recomputation. -/
theorem claim5_hl_freeze (posDb : List PosSnap) (eqDb : List EqSnap) (w : ℕ)
    (sym : List Char) (pos cur : ℚ) (now : ℤ) (fs : PosSnap) (lv : ℚ)
    (hlatest : (hl_latest_snapshot posDb w sym now).isSome = true)
    (hfirst : hl_first_snapshot posDb w sym = some fs)
    (hlev : fs.leverage = some lv) (hle : lv ≤ 100) :
    hl_calculate_leverage_from_margin_delta posDb eqDb w sym pos cur now =
      (some lv, pyTruthyQ fs.equity_used, pyStrOr fs.calculation_method "margin_delta") := by
  obtain ⟨ls, hls⟩ := Option.isSome_iff_exists.mp hlatest
  unfold hl_calculate_leverage_from_margin_delta
  rw [hls]
  dsimp only
  rw [hfirst]
  dsimp only
  rw [hlev]
  simp [hle]

/-- C5 counterexample: for an Apex position whose session-opening snapshot
already stores resolved values (leverage 60, equity 50, `"margin_delta"`), a
later computation in the same session (one minute later, previous snapshot
positive) does not return the stored values: it recomputes from the raw
payload's margin rate and yields (10, 10, `"margin_rate"`). -/
theorem claim5_counterexample :
    apex_calculate_leverage_from_margin_delta [snapResolved] [] 1 symB 100 150 60 rawTenth =
      (some 10, some 10, "margin_rate") ∧
    (some (10 : ℚ), some (10 : ℚ), ("margin_rate" : String)) ≠
      (snapResolved.leverage, snapResolved.equity_used, "margin_delta") := by
  constructor
  · have hnew : is_new_position [snapResolved] 1 symB 60 = false := by
      simp [is_new_position, maxByTs, snapResolved, List.filter, symB]
      norm_num
    unfold apex_calculate_leverage_from_margin_delta
    rw [hnew]
    norm_num [calculate_from_margin_rate, rawTenth]
  · simp [snapResolved]

/-- C5 witness: a session whose first snapshot stores leverage 5, equity 20
and method `"margin_delta"` has those exact values returned by the
Hyperliquid calculator one minute later. -/
theorem claim5_witness :
    hl_calculate_leverage_from_margin_delta [snapResolvedSmall] [] 1 symB 100 150 60 =
      (some 5, some 20, "margin_delta") := by
  have h1 : hl_latest_snapshot [snapResolvedSmall] 1 symB 60 = some snapResolvedSmall := by
    simp [hl_latest_snapshot, maxByTs, snapResolvedSmall, List.filter, symB]
  have h2 : hl_first_snapshot [snapResolvedSmall] 1 symB = some snapResolvedSmall := by
    simp [hl_first_snapshot, minByTs, snapResolvedSmall, List.filter, symB]
  have hres := claim5_hl_freeze [snapResolvedSmall] [] 1 symB 100 150 60
    snapResolvedSmall 5 (by rw [h1]; rfl) h2 (by simp [snapResolvedSmall]) (by norm_num)
  rw [hres]
  norm_num [snapResolvedSmall, pyTruthyQ, pyStrOr]

/-- C7: for a newly opened Apex position the estimator returns
`(notional/delta, delta, "margin_delta")` when a prior margin exists in the
1-hour window and `delta = current − previous` is strictly positive (no cap:
a delta above the notional is still used); when the delta method yields
nothing it returns `(1/r, notional·r, "margin_rate")` for a positive payload
margin rate `r` (notional from the payload's `|size| × entryPrice`), and
`(None, None, "unknown")` otherwise — it never fabricates a number. -/
theorem claim7_apex_estimator (posDb : List PosSnap) (eqDb : List EqSnap) (w : ℕ)
    (sym : List Char) (pos cur : ℚ) (now : ℤ) (raw : RawPosition) :
    (∀ pm, is_new_position posDb w sym now = true →
      apex_get_previous_initial_margin eqDb w now = some pm → 0 < cur - pm →
      apex_calculate_leverage_from_margin_delta posDb eqDb w sym pos cur now raw =
        (some (pos / (cur - pm)), some (cur - pm), "margin_delta")) ∧
    (is_new_position posDb w sym now = true →
      (apex_get_previous_initial_margin eqDb w now = none ∨
        ∃ pm, apex_get_previous_initial_margin eqDb w now = some pm ∧ cur - pm ≤ 0) →
      0 < raw.customInitialMarginRate.getD 0 →
      apex_calculate_leverage_from_margin_delta posDb eqDb w sym pos cur now raw =
        (some (1 / raw.customInitialMarginRate.getD 0),
          some (|raw.size.getD 0| * raw.entryPrice.getD 0 *
            raw.customInitialMarginRate.getD 0),
          "margin_rate")) ∧
    (is_new_position posDb w sym now = true →
      (apex_get_previous_initial_margin eqDb w now = none ∨
        ∃ pm, apex_get_previous_initial_margin eqDb w now = some pm ∧ cur - pm ≤ 0) →
      raw.customInitialMarginRate.getD 0 ≤ 0 →
      apex_calculate_leverage_from_margin_delta posDb eqDb w sym pos cur now raw =
        (none, none, "unknown")) := by
  refine ⟨?_, ?_, ?_⟩
  · intro pm hnew hprev hd
    simp [apex_calculate_leverage_from_margin_delta, hnew, hprev, not_le.mpr hd]
  · intro hnew hor hrate
    rcases hor with hnone | ⟨pm, hpm, hd⟩
    · simp [apex_calculate_leverage_from_margin_delta, hnew, hnone,
        calculate_from_margin_rate, hrate]
    · simp [apex_calculate_leverage_from_margin_delta, hnew, hpm, hd,
        calculate_from_margin_rate, hrate]
  · intro hnew hor hrate
    rcases hor with hnone | ⟨pm, hpm, hd⟩
    · simp [apex_calculate_leverage_from_margin_delta, hnew, hnone,
        calculate_from_margin_rate, not_lt.mpr hrate]
    · simp [apex_calculate_leverage_from_margin_delta, hnew, hpm, hd,
        calculate_from_margin_rate, not_lt.mpr hrate]

/-- C7 witness: previous margin 100, current margin 150, notional 3000 for a
new position gives leverage 60, equity 50 and method `"margin_delta"`. -/
theorem claim7_witness :
    is_new_position [] 1 symB 0 = true ∧
      apex_get_previous_initial_margin [eqPrev] 1 0 = some 100 ∧
      (0 : ℚ) < 150 - 100 ∧
      apex_calculate_leverage_from_margin_delta [] [eqPrev] 1 symB 3000 150 0 rawEmpty =
        (some 60, some 50, "margin_delta") := by
  have hnew : is_new_position [] 1 symB 0 = true := by
    simp [is_new_position, maxByTs]
  have hprev : apex_get_previous_initial_margin [eqPrev] 1 0 = some 100 := by
    simp [apex_get_previous_initial_margin, maxByTs, eqPrev, List.filter]
  have hd : (0 : ℚ) < 150 - 100 := by norm_num
  have hres := (claim7_apex_estimator [] [eqPrev] 1 symB 3000 150 0 rawEmpty).1
    100 hnew hprev hd
  refine ⟨hnew, hprev, hd, ?_⟩
  rw [hres]
  norm_num

/-- C8: `resolve_strategy_id` returns the strategy of an assignment matching
the wallet and normalized symbol with `start_at ≤ ts` and
(`end_at` null or `end_at ≥ ts`), choosing a latest `start_at` among the
matches, and returns `None` when nothing matches; on the tie-break example
(A: start 0 end 20, B: start 10 open-ended) resolving at time 15 returns B's
strategy 2. -/
theorem claim8_resolver :
    (∀ db w symbol ts sid, resolve_strategy_id db w symbol ts = some sid →
      ∃ a, a ∈ db ∧ assignmentMatches a w (normalize_symbol symbol) ts ∧
        a.strategy_id = sid ∧
        ∀ b ∈ db, assignmentMatches b w (normalize_symbol symbol) ts →
          b.start_at ≤ a.start_at) ∧
    (∀ db w symbol ts, (∀ a ∈ db, ¬ assignmentMatches a w (normalize_symbol symbol) ts) →
      resolve_strategy_id db w symbol ts = none) ∧
    resolve_strategy_id [assignA, assignB] 1 symB 15 = some 2 := by
  refine ⟨?_, ?_, ?_⟩
  · intro db w symbol ts sid h
    unfold resolve_strategy_id at h
    obtain ⟨a, hmax, hsid⟩ := Option.map_eq_some'.mp h
    have hmem := maxByTs_mem _ hmax
    rw [List.mem_filter] at hmem
    refine ⟨a, hmem.1, by simpa using hmem.2, hsid, ?_⟩
    intro b hb hbm
    exact maxByTs_le _ hmax b (List.mem_filter.mpr ⟨hb, by simpa using hbm⟩)
  · intro db w symbol ts hnone
    unfold resolve_strategy_id
    dsimp only
    have hnil : db.filter
        (fun a => decide (assignmentMatches a w (normalize_symbol symbol) ts)) = [] := by
      rw [List.filter_eq_nil_iff]
      intro a ha
      simpa using hnone a ha
    rw [hnil]
    simp [maxByTs]
  · simp [resolve_strategy_id, maxByTs, assignmentMatches, endAtOk, assignA, assignB,
      normalize_symbol, symB, pyUpperChar, List.filter]

/-- C8 witness: applying the resolver theorem to the tie-break example yields
a matching assignment with maximal `start_at` and strategy 2. -/
theorem claim8_witness :
    ∃ a, a ∈ [assignA, assignB] ∧
      assignmentMatches a 1 (normalize_symbol symB) 15 ∧ a.strategy_id = 2 ∧
      ∀ b ∈ [assignA, assignB], assignmentMatches b 1 (normalize_symbol symB) 15 →
        b.start_at ≤ a.start_at :=
  claim8_resolver.1 [assignA, assignB] 1 symB 15 2 claim8_resolver.2.2

end TradeViewer
